import Mathlib

/-!
Verification of the bank-branches GraphQL pagination/filter core
(`app/services/branch_service.py`, `app/repo/repository.py`,
`app/core/config.py`) as a shallow embedding in Lean.

Modelling conventions:
* SQLite rows are Lean structures; a database is two lists (tables).
* Python `int` is `Int`; list slicing, SQLite `LIMIT`/`OFFSET`, SQL `LIKE`
  and base64 are given executable Lean models faithful to the sources'
  behaviour (including SQLite's treatment of negative `LIMIT`/`OFFSET` and
  Python's negative-slice and lenient-base64 behaviour).
* Text is modelled at the ASCII level: `bytes.decode()` and `int(str)` are
  modelled for ASCII data (the only data the system's own encoder produces);
  non-ASCII bytes are treated as decode failures.  The real `bytes.decode()`
  also accepts non-ASCII UTF-8, and `int()` accepts non-ASCII Unicode
  digits, so on non-ASCII payloads the model's decode-failure set is larger
  than the program's.  Every theorem about decode *failure* therefore
  carries the `cursorPayloadAscii` hypothesis, which restricts to the domain
  where the model's failures and the program's coincide exactly.
-/

namespace BankGql

/-! ## Python / SQLite list primitives -/

/-- Python `l[:k]`: for `k ≥ 0` the first `k` elements, for `k < 0` all but
the last `-k` elements (used by `branch_rows[:limit]`). -/
def pySliceTo (k : Int) (l : List α) : List α :=
  if 0 ≤ k then l.take k.toNat else l.take (l.length - (-k).toNat)

/-- SQLite `LIMIT limit OFFSET offset` applied to an ordered row list:
a negative offset acts as 0, a negative limit means "no limit". -/
def sqlSlice (limit offset : Int) (l : List α) : List α :=
  if limit < 0 then l.drop offset.toNat else (l.drop offset.toNat).take limit.toNat

/-- Insertion into a list sorted by `le` (model of SQL `ORDER BY`). -/
def insertLe (le : α → α → Bool) (a : α) : List α → List α
  | [] => [a]
  | b :: bs => if le a b then a :: b :: bs else b :: insertLe le a bs

/-- Insertion sort by `le` (model of SQL `ORDER BY`; the datasets the claims
touch have distinct sort keys, so any stable order agrees with SQLite). -/
def sortLe (le : α → α → Bool) : List α → List α
  | [] => []
  | a :: as => insertLe le a (sortLe le as)

/-- Lexicographic `≤` on char lists by code point; on the ASCII data of this
system it coincides with SQLite's byte-wise `ORDER BY` on text columns. -/
def charsLe : List Char → List Char → Bool
  | [], _ => true
  | _ :: _, [] => false
  | c :: cs, d :: ds =>
    if c.toNat < d.toNat then true
    else if d.toNat < c.toNat then false
    else charsLe cs ds

/-! ## Base64 (model of Python `base64.b64encode` / `b64decode`) -/

def b64Alphabet : List Char :=
  "ABCDEFGHIJKLMNOPQRSTUVWXYZabcdefghijklmnopqrstuvwxyz0123456789+/".toList

def b64Char (k : Nat) : Char := b64Alphabet.getD k 'A'

def b64Index (c : Char) : Option Nat := List.indexOf? c b64Alphabet

/-- `base64.b64encode` on a byte list (bytes are `Nat < 256`). -/
def b64encodeBytes : List Nat → List Char
  | b1 :: b2 :: b3 :: rest =>
    b64Char (b1 / 4) :: b64Char (b1 % 4 * 16 + b2 / 16) ::
      b64Char (b2 % 16 * 4 + b3 / 64) :: b64Char (b3 % 64) :: b64encodeBytes rest
  | [b1, b2] => [b64Char (b1 / 4), b64Char (b1 % 4 * 16 + b2 / 16), b64Char (b2 % 16 * 4), '=']
  | [b1] => [b64Char (b1 / 4), b64Char (b1 % 4 * 16), '=', '=']
  | [] => []

/-- Strict base64 group decoding after invalid characters have been
discarded: 4-character groups; a padded group ends the data (Python's
non-strict `b64decode` ignores data after padding); a leftover group of
fewer than 4 characters is an "Incorrect padding" failure. -/
def b64decodeGroups : List Char → Option (List Nat)
  | [] => some []
  | c1 :: c2 :: c3 :: c4 :: rest =>
    match b64Index c1, b64Index c2 with
    | some k1, some k2 =>
      if c3 = '=' then some [k1 * 4 + k2 / 16]
      else
        match b64Index c3 with
        | some k3 =>
          if c4 = '=' then some [k1 * 4 + k2 / 16, k2 % 16 * 16 + k3 / 4]
          else
            match b64Index c4 with
            | some k4 =>
              (b64decodeGroups rest).map
                (fun bs => (k1 * 4 + k2 / 16) :: (k2 % 16 * 16 + k3 / 4) :: (k3 % 4 * 64 + k4) :: bs)
            | none => none
        | none => none
    | _, _ => none
  | _ => none

def isB64CharOrPad (c : Char) : Bool := b64Alphabet.contains c || c = '='

/-- `base64.b64decode(s)` for a Python `str` argument: the string must be
ASCII (it is `.encode('ascii')`-ed first); characters outside the alphabet
are discarded, then 4-character groups are decoded. -/
def pyB64Decode (s : String) : Option (List Nat) :=
  if s.toList.all (fun c => c.toNat < 128) then
    b64decodeGroups (s.toList.filter isB64CharOrPad)
  else none

/-! ## Decimal strings and Python `int(...)` -/

def digitChar (d : Nat) : Char := Char.ofNat (48 + d)

/-- Decimal digits of `n`, most significant first (`str(n)` for `n ≥ 0`);
fuel-structured so that the kernel can evaluate it. -/
def natDecAux : Nat → Nat → List Char
  | 0, _ => []
  | fuel + 1, n => if n < 10 then [digitChar n] else natDecAux fuel (n / 10) ++ [digitChar (n % 10)]

def natDecimal (n : Nat) : List Char := natDecAux (n + 1) n

/-- Python `str(k)` for an `int` `k`. -/
def intDecimal (k : Int) : List Char :=
  if k < 0 then '-' :: natDecimal (-k).toNat else natDecimal k.toNat

def isDigitChar (c : Char) : Bool := 48 ≤ c.toNat && c.toNat ≤ 57

def digitVal (c : Char) : Nat := c.toNat - 48

def digitsValAux : List Char → Nat → Option Nat
  | [], acc => some acc
  | c :: cs, acc => if isDigitChar c then digitsValAux cs (acc * 10 + digitVal c) else none

def parseDigits (cs : List Char) : Option Nat :=
  if cs.isEmpty then none else digitsValAux cs 0

/-- Underscore placement check of Python `int(str)`: an underscore must be
followed by a (digit) character and may not be doubled or trailing; a
leading underscore is rejected by the caller. -/
def underscoresOk : List Char → Bool
  | [] => true
  | c :: rest =>
    if c = '_' then
      match rest with
      | [] => false
      | c2 :: _ => if c2 = '_' then false else underscoresOk rest
    else underscoresOk rest

def parseUnderscoredDigits (cs : List Char) : Option Nat :=
  if cs.head? = some '_' then none
  else if underscoresOk cs then parseDigits (cs.filter (fun c => !(c = '_'))) else none

/-- Whitespace stripped by Python `int(str)` (ASCII fragment). -/
def pyWs (c : Char) : Bool := c.isWhitespace || c.toNat = 11 || c.toNat = 12

def trimWs (cs : List Char) : List Char :=
  ((cs.dropWhile pyWs).reverse.dropWhile pyWs).reverse

/-- Python `int(str)` on ASCII text: optional surrounding whitespace,
optional sign, non-empty digit run with optional single interior
underscores.  (Python additionally accepts non-ASCII Unicode digits, which
cannot arise from this system's own encoder and are modelled as failures.) -/
def pyIntParse (cs : List Char) : Option Int :=
  match trimWs cs with
  | [] => none
  | c :: rest =>
    if c = '-' then (parseUnderscoredDigits rest).map (fun n => -(n : Int))
    else if c = '+' then (parseUnderscoredDigits rest).map (fun n => (n : Int))
    else (parseUnderscoredDigits (c :: rest)).map (fun n => (n : Int))

/-- `bytes.decode()` restricted to ASCII bytes, on which UTF-8 decoding is
the identity.  Non-ASCII bytes are modelled as failures, which is *stricter*
than Python (UTF-8 decoding accepts some of them): the model is faithful —
same successes, same failures, same text — exactly on ASCII payloads, and
theorems about decode failure assume `cursorPayloadAscii` for this reason
(see the module comment). -/
def bytesToAsciiText (bs : List Nat) : Option (List Char) :=
  if bs.all (fun b => b < 128) then some (bs.map Char.ofNat) else none

def textToBytes (cs : List Char) : List Nat := cs.map Char.toNat

/-! ## The cursor codec of `branch_service.py` -/

/-- `base64.b64encode(str(k).encode()).decode()` — the per-edge cursor mint. -/
def encodeCursor (k : Int) : String := ⟨b64encodeBytes (textToBytes (intDecimal k))⟩

/-- `int(base64.b64decode(after).decode())` — the decode applied to `after`.
Exact on every string whose base64 payload is ASCII (`cursorPayloadAscii`),
which includes everything the system's own encoder mints; for non-ASCII
payloads the model returns `none` where Python's UTF-8 `decode()` plus
Unicode-digit `int()` can succeed, so theorems concluding from
`decodeCursorInt s = none` restrict to `cursorPayloadAscii`. -/
def decodeCursorInt (s : String) : Option Int :=
  (pyB64Decode s).bind fun bs => (bytesToAsciiText bs).bind fun cs => pyIntParse cs

/-- The offset computed from the `after` argument: `0` when absent or falsy,
`decoded + 1` on success, `0` when decoding raises (the `except` handler). -/
def offsetOfAfter (after : Option String) : Int :=
  match after with
  | none => 0
  | some s =>
    if s.isEmpty then 0
    else match decodeCursorInt s with
      | some k => k + 1
      | none => 0

/-! ## Data model (`banks(id, name)`, `branches(ifsc, …, bank_id)`) -/

structure BankRow where
  id : Int
  name : String
deriving DecidableEq, Repr

structure BranchRow where
  ifsc : String
  branch : String
  address : String
  city : String
  district : String
  state : String
  bank_id : Int
deriving DecidableEq, Repr

structure DB where
  banks : List BankRow
  branches : List BranchRow
deriving DecidableEq, Repr

/-- A row of `branches b JOIN banks ba ON b.bank_id = ba.id`. -/
structure JoinedRow where
  ifsc : String
  branch : String
  address : String
  city : String
  district : String
  state : String
  bank_id : Int
  bank_name : String
deriving DecidableEq, Repr

/-- The inner join used by every branch query. -/
def joinRows (db : DB) : List JoinedRow :=
  db.branches.flatMap fun br =>
    (db.banks.filter fun ba => ba.id == br.bank_id).map fun ba =>
      { ifsc := br.ifsc, branch := br.branch, address := br.address, city := br.city
        district := br.district, state := br.state, bank_id := br.bank_id, bank_name := ba.name }

/-- Referential integrity: each branch's `bank_id` resolves to exactly one
bank (the spec assumes this is enforced at load time). -/
def refIntegrity (db : DB) : Prop :=
  ∀ br ∈ db.branches, (db.banks.filter fun ba => ba.id == br.bank_id).length = 1

def bankNameLe (a b : BankRow) : Bool := charsLe a.name.toList b.name.toList

def ifscLe (a b : JoinedRow) : Bool := charsLe a.ifsc.toList b.ifsc.toList

/-! ## SQL `LIKE` (SQLite semantics: ASCII-case-insensitive, `%`/`_` wildcards) -/

/-- ASCII lower-casing (SQLite's `LIKE` folds only A–Z). -/
def asciiLower (c : Char) : Char :=
  if 65 ≤ c.toNat ∧ c.toNat ≤ 90 then Char.ofNat (c.toNat + 32) else c

/-- `LIKE` matcher on pattern/text char lists; fuel-structured (the fuel
strictly dominates `pattern.length + text.length`) so the kernel can
evaluate it. -/
def likeAux : Nat → List Char → List Char → Bool
  | 0, _, _ => false
  | _ + 1, [], s => s.isEmpty
  | fuel + 1, a :: p', [] => if a = '%' then likeAux fuel p' [] else false
  | fuel + 1, a :: p', c :: s' =>
    if a = '%' then likeAux fuel p' (c :: s') || likeAux fuel (a :: p') s'
    else (if a = '_' then true else asciiLower a == asciiLower c) && likeAux fuel p' s'

def likeChars (p s : List Char) : Bool := likeAux (p.length + s.length + 1) p s

/-- `column LIKE '%value%'` — the condition built for every present filter
field (`params.append(f"%{value}%")`). -/
def likeCond (value stored : String) : Bool :=
  likeChars ('%' :: value.toList ++ ['%']) stored.toList

/-! ## Repository layer (`repository.py`) -/

/-- `BankRepository.get_all_banks`: `SELECT id, name FROM banks ORDER BY name
LIMIT ? OFFSET ?`. -/
def BankRepository.get_all_banks (db : DB) (limit offset : Int) : List BankRow :=
  sqlSlice limit offset (sortLe bankNameLe db.banks)

/-- `BankRepository.count_banks`: `SELECT COUNT(*) FROM banks`. -/
def BankRepository.count_banks (db : DB) : Nat := db.banks.length

/-- `BankRepository.get_bank_by_id`: `SELECT id, name FROM banks WHERE id = ?`
(first matching row or none). -/
def BankRepository.get_bank_by_id (db : DB) (bank_id : Int) : Option BankRow :=
  db.banks.find? fun b => b.id == bank_id

/-- `BranchRepository.get_all_branches`: the join, `ORDER BY b.ifsc`,
`LIMIT ? OFFSET ?`. -/
def BranchRepository.get_all_branches (db : DB) (limit offset : Int) : List JoinedRow :=
  sqlSlice limit offset (sortLe ifscLe (joinRows db))

/-- `BranchRepository.count_branches`: `SELECT COUNT(*) FROM branches`. -/
def BranchRepository.count_branches (db : DB) : Nat := db.branches.length

/-- `BranchRepository.get_branch_by_ifsc`: the join filtered by
`b.ifsc = ?` (first matching row or none). -/
def BranchRepository.get_branch_by_ifsc (db : DB) (ifsc : String) : Option JoinedRow :=
  (joinRows db).find? fun r => r.ifsc == ifsc

/-- The sparse filter record (`BranchFilterInput`). -/
structure BranchFilterInput where
  ifsc : Option String := none
  city : Option String := none
  district : Option String := none
  state : Option String := none
  bank_name : Option String := none
  branch_name : Option String := none
deriving DecidableEq, Repr

/-- Python truthiness of an optional string field (`if ifsc:` …). -/
def truthy : Option String → Bool
  | none => false
  | some s => !s.isEmpty

/-- One `LIKE` condition when the field is truthy, nothing otherwise —
each `if field:` block of `search_branches`. -/
def fieldCond (field : Option String) (sel : JoinedRow → String) : List (JoinedRow → Bool) :=
  match field with
  | none => []
  | some v => if v.isEmpty then [] else [fun r => likeCond v (sel r)]

/-- The condition list built by `search_branches`, in source order. -/
def searchConds (f : BranchFilterInput) : List (JoinedRow → Bool) :=
  fieldCond f.ifsc (fun r => r.ifsc) ++ fieldCond f.city (fun r => r.city) ++
    fieldCond f.district (fun r => r.district) ++ fieldCond f.state (fun r => r.state) ++
    fieldCond f.bank_name (fun r => r.bank_name) ++ fieldCond f.branch_name (fun r => r.branch)

/-- The `WHERE` clause: all conditions ANDed (`" AND ".join(conditions)`),
`1=1` when the list is empty. -/
def rowMatches (f : BranchFilterInput) (r : JoinedRow) : Bool :=
  (searchConds f).all fun c => c r

/-- The `params.append(f"%{value}%")` of one `if field:` block. -/
def fieldParam (field : Option String) : List String :=
  match field with
  | none => []
  | some v => if v.isEmpty then [] else ["%" ++ v ++ "%"]

/-- The ordered parameter list shared by the count query and the data query
(`params`), in source order. -/
def searchParams (f : BranchFilterInput) : List String :=
  fieldParam f.ifsc ++ fieldParam f.city ++ fieldParam f.district ++ fieldParam f.state ++
    fieldParam f.bank_name ++ fieldParam f.branch_name

/-- `BranchRepository.search_branches`: one predicate (`where_clause`) drives
the count query and the data query; the data query additionally orders by
`ifsc` and appends `LIMIT ? OFFSET ?`. Returns `(rows, total_count)`. -/
def BranchRepository.search_branches (db : DB) (f : BranchFilterInput)
    (limit offset : Int) : List JoinedRow × Nat :=
  let matched := (joinRows db).filter (rowMatches f)
  (sqlSlice limit offset (sortLe ifscLe matched), matched.length)

/-! ## GraphQL result types (`gql_types.py`) -/

structure BankType where
  id : Int
  name : String
deriving DecidableEq, Repr

structure BranchType where
  ifsc : String
  branch : String
  address : String
  city : String
  district : String
  state : String
  bank : BankType
deriving DecidableEq, Repr

structure PageInfo where
  has_next_page : Bool
  has_previous_page : Bool
  start_cursor : Option String
  end_cursor : Option String
deriving DecidableEq, Repr

structure BankEdge where
  node : BankType
  cursor : String
deriving DecidableEq, Repr

structure BranchEdge where
  node : BranchType
  cursor : String
deriving DecidableEq, Repr

structure BankConnection where
  edges : List BankEdge
  page_info : PageInfo
  total_count : Nat
deriving DecidableEq, Repr

structure BranchConnection where
  edges : List BranchEdge
  page_info : PageInfo
  total_count : Nat
deriving DecidableEq, Repr

/-! ## Service layer (`branch_service.py`) -/

/-- `settings.MAX_PAGE_SIZE` (`config.py`). -/
def MAX_PAGE_SIZE : Int := 100

/-- `settings.DEFAULT_PAGE_SIZE` (`config.py`). -/
def DEFAULT_PAGE_SIZE : Int := 20

/-- `len(rows) > limit` — the lookahead check. -/
def mkHasNext (limit : Int) (fetched : List α) : Bool :=
  decide ((fetched.length : Int) > limit)

/-- `if has_next_page: rows = rows[:limit]`. -/
def trimRows (limit : Int) (fetched : List α) : List α :=
  if (fetched.length : Int) > limit then pySliceTo limit fetched else fetched

def toBankType (r : BankRow) : BankType := { id := r.id, name := r.name }

def toBranchType (r : JoinedRow) : BranchType :=
  { ifsc := r.ifsc, branch := r.branch, address := r.address, city := r.city
    district := r.district, state := r.state
    bank := { id := r.bank_id, name := r.bank_name } }

/-- The edge list: per retained row at local index `idx`, cursor
`encode(offset + idx)`. -/
def mkBankEdges (offset : Int) (rows : List BankRow) : List BankEdge :=
  rows.enum.map fun p => { node := toBankType p.2, cursor := encodeCursor (offset + (p.1 : Int)) }

def mkBranchEdges (offset : Int) (rows : List JoinedRow) : List BranchEdge :=
  rows.enum.map fun p => { node := toBranchType p.2, cursor := encodeCursor (offset + (p.1 : Int)) }

/-- `BankService.get_all_banks` after cursor decoding: clamp, lookahead
fetch, count, trim, edge and page-info assembly. -/
def assembleBanks (db : DB) (first offset : Int) : BankConnection :=
  let limit := min first MAX_PAGE_SIZE
  let bank_rows := BankRepository.get_all_banks db (limit + 1) offset
  let edges := mkBankEdges offset (trimRows limit bank_rows)
  { edges := edges
    page_info :=
      { has_next_page := mkHasNext limit bank_rows
        has_previous_page := decide (offset > 0)
        start_cursor := edges.head?.map fun e => e.cursor
        end_cursor := edges.getLast?.map fun e => e.cursor }
    total_count := BankRepository.count_banks db }

/-- `BankService.get_all_banks`. -/
def BankService.get_all_banks (db : DB) (first : Int) (after : Option String) : BankConnection :=
  assembleBanks db first (offsetOfAfter after)

/-- `BankService.get_bank_by_id`: row or `None`, never a failure. -/
def BankService.get_bank_by_id (db : DB) (bank_id : Int) : Option BankType :=
  (BankRepository.get_bank_by_id db bank_id).map toBankType

/-- `if filter_input and any([...])` — whether the filtered path is taken. -/
def filterActive : Option BranchFilterInput → Bool
  | none => false
  | some f =>
    truthy f.ifsc || truthy f.city || truthy f.district || truthy f.state ||
      truthy f.bank_name || truthy f.branch_name

/-- The `(branch_rows, total_count)` fetch of `get_all_branches`: the
filtered path via `search_branches`, otherwise `get_all_branches` +
`count_branches`. -/
def branchFetch (db : DB) (fopt : Option BranchFilterInput) (limit offset : Int) :
    List JoinedRow × Nat :=
  match fopt with
  | some f =>
    if truthy f.ifsc || truthy f.city || truthy f.district || truthy f.state ||
        truthy f.bank_name || truthy f.branch_name then
      BranchRepository.search_branches db f limit offset
    else
      (BranchRepository.get_all_branches db limit offset, BranchRepository.count_branches db)
  | none =>
    (BranchRepository.get_all_branches db limit offset, BranchRepository.count_branches db)

/-- `BranchService.get_all_branches` after cursor decoding. -/
def assembleBranches (db : DB) (first offset : Int) (fopt : Option BranchFilterInput) :
    BranchConnection :=
  let limit := min first MAX_PAGE_SIZE
  let fetched := (branchFetch db fopt (limit + 1) offset).1
  let edges := mkBranchEdges offset (trimRows limit fetched)
  { edges := edges
    page_info :=
      { has_next_page := mkHasNext limit fetched
        has_previous_page := decide (offset > 0)
        start_cursor := edges.head?.map fun e => e.cursor
        end_cursor := edges.getLast?.map fun e => e.cursor }
    total_count := (branchFetch db fopt (limit + 1) offset).2 }

/-- `BranchService.get_all_branches`. -/
def BranchService.get_all_branches (db : DB) (first : Int) (after : Option String)
    (fopt : Option BranchFilterInput) : BranchConnection :=
  assembleBranches db first (offsetOfAfter after) fopt

/-- `BranchService.get_branch_by_ifsc`: row or `None`, never a failure. -/
def BranchService.get_branch_by_ifsc (db : DB) (ifsc : String) : Option BranchType :=
  (BranchRepository.get_branch_by_ifsc db ifsc).map toBranchType

/-! ## Derived notions used to state the claims -/

/-- The ordered bank row list the bank page is a window of. -/
def bankDataset (db : DB) : List BankRow := sortLe bankNameLe db.banks

/-- The ordered (and, on the filtered path, filtered) joined row list the
branch page is a window of. -/
def branchDataset (db : DB) : Option BranchFilterInput → List JoinedRow
  | some f =>
    if filterActive (some f) then sortLe ifscLe ((joinRows db).filter (rowMatches f))
    else sortLe ifscLe (joinRows db)
  | none => sortLe ifscLe (joinRows db)

/-- The total count reported on each branch path. -/
def branchTotal (db : DB) : Option BranchFilterInput → Nat
  | some f =>
    if filterActive (some f) then ((joinRows db).filter (rowMatches f)).length
    else db.branches.length
  | none => db.branches.length

/-- The predicate the whole request is filtered by (`1=1` when inactive). -/
def rowMatchesOpt : Option BranchFilterInput → JoinedRow → Bool
  | some f => rowMatches f
  | none => fun _ => true

/-- Filter value free of the `LIKE` wildcards `%` and `_`. -/
def noWild (cs : List Char) : Bool := cs.all fun c => !(c = '%') && !(c = '_')

/-- Executable substring search on char lists. -/
def containsChars (needle : List Char) : List Char → Bool
  | [] => needle.isEmpty
  | c :: rest => needle.isPrefixOf (c :: rest) || containsChars needle rest

/-- Literal (case-sensitive, position-independent) substring containment —
the reading of "contains the filter value as a substring" in the claims. -/
def strContains (needle hay : String) : Bool := containsChars needle.toList hay.toList

/-- The matched set of a filter, before pagination. -/
def matchedSet (db : DB) (f : BranchFilterInput) : List JoinedRow :=
  (joinRows db).filter (rowMatches f)

/-! ## Concrete datasets used by scenario claims and counterexamples -/

/-- The spec's end-to-end dataset: banks `(1,"Alpha") (2,"Beta") (3,"Gamma")`. -/
def db3 : DB := { banks := [⟨1, "Alpha"⟩, ⟨2, "Beta"⟩, ⟨3, "Gamma"⟩], branches := [] }

/-- One-bank dataset. -/
def db1 : DB := { banks := [⟨1, "Alpha"⟩], branches := [] }

/-- One branch whose `city` is `"AXC"`. -/
def dbAXC : DB :=
  { banks := [⟨1, "B1"⟩]
    branches := [⟨"IF01", "Br1", "Addr1", "AXC", "D1", "S1", 1⟩] }

/-- Branches with varied `city`/`state`: `(Mumbai, MH)`, `(Mumbai, KA)`,
`(Delhi, MH)`. -/
def dbVaried : DB :=
  { banks := [⟨1, "B1"⟩]
    branches :=
      [⟨"IF01", "Br1", "A1", "Mumbai", "D1", "MH", 1⟩,
       ⟨"IF02", "Br2", "A2", "Mumbai", "D2", "KA", 1⟩,
       ⟨"IF03", "Br3", "A3", "Delhi", "D3", "MH", 1⟩] }

end BankGql

namespace BankGql

/-! # Theorems -/

theorem length_insertLe (le : α → α → Bool) (a : α) (l : List α) :
    (insertLe le a l).length = l.length + 1 := by
  induction l with
  | nil => rfl
  | cons b bs ih =>
    simp only [insertLe]
    by_cases h : le a b = true
    · simp [h]
    · simp [h, ih]

theorem length_sortLe (le : α → α → Bool) (l : List α) :
    (sortLe le l).length = l.length := by
  induction l with
  | nil => rfl
  | cons a as ih => simp [sortLe, length_insertLe, ih]

/-! ### Page-assembly lemmas -/

theorem branchFetch_eq (db : DB) (fopt : Option BranchFilterInput) (limit offset : Int) :
    branchFetch db fopt limit offset =
      (sqlSlice limit offset (branchDataset db fopt), branchTotal db fopt) := by
  match fopt with
  | none => rfl
  | some f =>
    by_cases h : (truthy f.ifsc || truthy f.city || truthy f.district || truthy f.state ||
        truthy f.bank_name || truthy f.branch_name) = true
    · simp only [branchFetch, branchDataset, branchTotal, filterActive, h, if_pos,
        BranchRepository.search_branches]
    · simp only [branchFetch, branchDataset, branchTotal, filterActive,
        BranchRepository.get_all_branches, BranchRepository.count_branches,
        Bool.not_eq_true] at h ⊢
      simp [h]

/-- The lookahead test over a `LIMIT (limit+1) OFFSET offset` fetch answers
whether strictly more than `limit` rows exist at the offset. -/
theorem mkHasNext_sqlSlice (limit offset : Int) (l : List α) :
    mkHasNext limit (sqlSlice (limit + 1) offset l) =
      decide (((l.drop offset.toNat).length : Int) > limit) := by
  unfold mkHasNext sqlSlice
  by_cases h : limit + 1 < 0
  · rw [if_pos h]
  · rw [if_neg h]
    rw [decide_eq_decide]
    have ht : ((limit + 1).toNat : Int) = limit + 1 := Int.toNat_of_nonneg (by omega)
    rw [List.length_take]
    constructor
    · intro hgt
      have hle : ((min (limit + 1).toNat (l.drop offset.toNat).length : Nat) : Int) ≤
          ((l.drop offset.toNat).length : Int) := by
        exact_mod_cast Nat.min_le_right _ _
      omega
    · intro hgt
      have : min (limit + 1).toNat (l.drop offset.toNat).length = (limit + 1).toNat := by
        apply Nat.min_eq_left
        omega
      rw [this]
      omega

theorem length_sqlSlice_le (limit offset : Int) (h : 0 ≤ limit) (l : List α) :
    ((sqlSlice limit offset l).length : Int) ≤ limit := by
  unfold sqlSlice
  rw [if_neg (by omega)]
  rw [List.length_take]
  have : ((min limit.toNat (l.drop offset.toNat).length : Nat) : Int) ≤ (limit.toNat : Int) := by
    exact_mod_cast Nat.min_le_left _ _
  omega

theorem length_trimRows_le (limit : Int) (h0 : 0 ≤ limit) (fetched : List α) :
    ((trimRows limit fetched).length : Int) ≤ limit := by
  unfold trimRows
  by_cases h : ((fetched.length : Int) > limit)
  · rw [if_pos h]
    unfold pySliceTo
    rw [if_pos h0, List.length_take]
    have : ((min limit.toNat fetched.length : Nat) : Int) ≤ (limit.toNat : Int) := by
      exact_mod_cast Nat.min_le_left _ _
    omega
  · rw [if_neg h]
    omega

/-- When the lookahead detects a next page (and the limit is non-negative),
the trim drops exactly the lookahead row. -/
theorem trimRows_eq_dropLast (limit offset : Int) (l : List α) (h0 : 0 ≤ limit)
    (hn : mkHasNext limit (sqlSlice (limit + 1) offset l) = true) :
    trimRows limit (sqlSlice (limit + 1) offset l) = (sqlSlice (limit + 1) offset l).dropLast := by
  have hgt : ((sqlSlice (limit + 1) offset l).length : Int) > limit := by
    have := of_decide_eq_true hn
    exact this
  have hle : ((sqlSlice (limit + 1) offset l).length : Int) ≤ limit + 1 :=
    length_sqlSlice_le (limit + 1) offset (by omega) l
  have hlen : (sqlSlice (limit + 1) offset l).length = limit.toNat + 1 := by omega
  unfold trimRows
  rw [if_pos hgt]
  unfold pySliceTo
  rw [if_pos h0, List.dropLast_eq_take, hlen]
  simp

theorem length_mkBankEdges (offset : Int) (rows : List BankRow) :
    (mkBankEdges offset rows).length = rows.length := by
  simp [mkBankEdges, List.enum_length]

theorem length_mkBranchEdges (offset : Int) (rows : List JoinedRow) :
    (mkBranchEdges offset rows).length = rows.length := by
  simp [mkBranchEdges, List.enum_length]

theorem banks_edges_eq (db : DB) (first : Int) (after : Option String) :
    (BankService.get_all_banks db first after).edges =
      mkBankEdges (offsetOfAfter after)
        (trimRows (min first MAX_PAGE_SIZE)
          (sqlSlice (min first MAX_PAGE_SIZE + 1) (offsetOfAfter after) (bankDataset db))) := rfl

theorem banks_hasNext_eq (db : DB) (first : Int) (after : Option String) :
    (BankService.get_all_banks db first after).page_info.has_next_page =
      mkHasNext (min first MAX_PAGE_SIZE)
        (sqlSlice (min first MAX_PAGE_SIZE + 1) (offsetOfAfter after) (bankDataset db)) := rfl

theorem branches_edges_eq (db : DB) (first : Int) (after : Option String)
    (fopt : Option BranchFilterInput) :
    (BranchService.get_all_branches db first after fopt).edges =
      mkBranchEdges (offsetOfAfter after)
        (trimRows (min first MAX_PAGE_SIZE)
          (sqlSlice (min first MAX_PAGE_SIZE + 1) (offsetOfAfter after)
            (branchDataset db fopt))) := by
  show mkBranchEdges _ (trimRows _ (branchFetch db fopt _ _).1) = _
  rw [branchFetch_eq]

theorem branches_hasNext_eq (db : DB) (first : Int) (after : Option String)
    (fopt : Option BranchFilterInput) :
    (BranchService.get_all_branches db first after fopt).page_info.has_next_page =
      mkHasNext (min first MAX_PAGE_SIZE)
        (sqlSlice (min first MAX_PAGE_SIZE + 1) (offsetOfAfter after)
          (branchDataset db fopt)) := by
  show mkHasNext _ (branchFetch db fopt _ _).1 = _
  rw [branchFetch_eq]

theorem branches_total_eq (db : DB) (first : Int) (after : Option String)
    (fopt : Option BranchFilterInput) :
    (BranchService.get_all_branches db first after fopt).total_count = branchTotal db fopt := by
  show (branchFetch db fopt _ _).2 = _
  rw [branchFetch_eq]

/-! ### C2 — page-size clamping -/

/-- C2 (amended): the effective page size is `min(first, max_page_size)` —
clamped from above only.  For every non-negative `first`, both list
operations return at most `min(first, max_page_size)` edges, hence at most
`max_page_size` and at most `first` edges.  (Zero or negative `first` is not
clamped to the configured default; see the counterexample.) -/
theorem claim_C2_clamp_amended (db : DB) (first : Int) (after : Option String)
    (fopt : Option BranchFilterInput) (h : 0 ≤ first) :
    ((BankService.get_all_banks db first after).edges.length : Int) ≤ min first MAX_PAGE_SIZE ∧
    ((BranchService.get_all_branches db first after fopt).edges.length : Int) ≤
      min first MAX_PAGE_SIZE ∧
    ((BankService.get_all_banks db first after).edges.length : Int) ≤ MAX_PAGE_SIZE ∧
    ((BranchService.get_all_branches db first after fopt).edges.length : Int) ≤ MAX_PAGE_SIZE ∧
    ((BankService.get_all_banks db first after).edges.length : Int) ≤ first ∧
    ((BranchService.get_all_branches db first after fopt).edges.length : Int) ≤ first := by
  have h0 : (0 : Int) ≤ min first MAX_PAGE_SIZE := by
    unfold MAX_PAGE_SIZE
    omega
  have hb : ((BankService.get_all_banks db first after).edges.length : Int) ≤
      min first MAX_PAGE_SIZE := by
    rw [banks_edges_eq, length_mkBankEdges]
    exact length_trimRows_le _ h0 _
  have hr : ((BranchService.get_all_branches db first after fopt).edges.length : Int) ≤
      min first MAX_PAGE_SIZE := by
    rw [branches_edges_eq, length_mkBranchEdges]
    exact length_trimRows_le _ h0 _
  refine ⟨hb, hr, ?_, ?_, ?_, ?_⟩ <;> omega

/-- Witness for `claim_C2_clamp_amended` at `first = 5`. -/
theorem claim_C2_clamp_amended_witness :
    ((BankService.get_all_banks db3 5 none).edges.length : Int) ≤ min 5 MAX_PAGE_SIZE ∧
    ((BankService.get_all_banks db3 5 none).edges.length : Int) ≤ 5 := by
  have h := claim_C2_clamp_amended db3 5 none none (by omega)
  exact ⟨h.1, h.2.2.2.2.1⟩

/-- C2 counterexample: with a single bank in the table, `first = 0` is not
treated as the configured default: the page has zero edges yet reports
`has_next_page = true` — exactly the "zero-length fetch that still reports a
misleading `has_next_page`" the claim rules out, so the effective page size
is not clamped into `[1, max_page_size]`. -/
theorem claim_C2_counterexample :
    (BankService.get_all_banks db1 0 none).edges = [] ∧
    (BankService.get_all_banks db1 0 none).page_info.has_next_page = true := by
  decide

/-! ### C3 — next-page flag via lookahead -/

/-- C3: `has_next_page` is true iff strictly more than `effective_limit` rows
exist at the offset (both services, any filter); and for a non-negative
`first`, when it is true the edges are built from the fetched rows with the
lookahead row (the last of the `effective_limit + 1` fetched rows) dropped. -/
theorem claim_C3_lookahead (db : DB) (first : Int) (after : Option String)
    (fopt : Option BranchFilterInput) :
    ((BankService.get_all_banks db first after).page_info.has_next_page =
      decide ((((bankDataset db).drop (offsetOfAfter after).toNat).length : Int) >
        min first MAX_PAGE_SIZE)) ∧
    ((BranchService.get_all_branches db first after fopt).page_info.has_next_page =
      decide ((((branchDataset db fopt).drop (offsetOfAfter after).toNat).length : Int) >
        min first MAX_PAGE_SIZE)) ∧
    (0 ≤ first → (BankService.get_all_banks db first after).page_info.has_next_page = true →
      (BankService.get_all_banks db first after).edges =
        mkBankEdges (offsetOfAfter after)
          (sqlSlice (min first MAX_PAGE_SIZE + 1) (offsetOfAfter after)
            (bankDataset db)).dropLast) ∧
    (0 ≤ first →
      (BranchService.get_all_branches db first after fopt).page_info.has_next_page = true →
      (BranchService.get_all_branches db first after fopt).edges =
        mkBranchEdges (offsetOfAfter after)
          (sqlSlice (min first MAX_PAGE_SIZE + 1) (offsetOfAfter after)
            (branchDataset db fopt)).dropLast) := by
  refine ⟨?_, ?_, ?_, ?_⟩
  · rw [banks_hasNext_eq, mkHasNext_sqlSlice]
  · rw [branches_hasNext_eq, mkHasNext_sqlSlice]
  · intro hfirst hnext
    rw [banks_hasNext_eq] at hnext
    rw [banks_edges_eq, trimRows_eq_dropLast _ _ _ (by unfold MAX_PAGE_SIZE; omega) hnext]
  · intro hfirst hnext
    rw [branches_hasNext_eq] at hnext
    rw [branches_edges_eq, trimRows_eq_dropLast _ _ _ (by unfold MAX_PAGE_SIZE; omega) hnext]

/-- Witness for `claim_C3_lookahead`: on the three-bank dataset with
`first = 2` the flag is true and the edges are the fetched rows minus the
lookahead row. -/
theorem claim_C3_lookahead_witness :
    (BankService.get_all_banks db3 2 none).page_info.has_next_page = true ∧
    (BankService.get_all_banks db3 2 none).edges =
      mkBankEdges (offsetOfAfter none)
        (sqlSlice (min 2 MAX_PAGE_SIZE + 1) (offsetOfAfter none) (bankDataset db3)).dropLast := by
  have hnext : (BankService.get_all_banks db3 2 none).page_info.has_next_page = true := by decide
  exact ⟨hnext, (claim_C3_lookahead db3 2 none none).2.2.1 (by omega) hnext⟩

/-! ### C7 — end-to-end pagination scenario -/

/-- C7: on banks `(1,"Alpha") (2,"Beta") (3,"Gamma")`, `first = 2` with no
cursor yields Alpha then Beta (name-ascending), `has_next_page`,
`total_count = 3`, and Beta's edge carries cursor `"MQ=="`; paging with
`after = "MQ=="` yields exactly Gamma with `has_next_page = false` and
`has_previous_page = true`. -/
theorem claim_C7_scenario :
    ((BankService.get_all_banks db3 2 none).edges.map fun e => e.node) =
      [⟨1, "Alpha"⟩, ⟨2, "Beta"⟩] ∧
    (BankService.get_all_banks db3 2 none).page_info.has_next_page = true ∧
    (BankService.get_all_banks db3 2 none).page_info.has_previous_page = false ∧
    (BankService.get_all_banks db3 2 none).total_count = 3 ∧
    ((BankService.get_all_banks db3 2 none).edges.getLast?.map fun e => e.cursor) =
      some "MQ==" ∧
    ((BankService.get_all_banks db3 2 (some "MQ==")).edges.map fun e => e.node) =
      [⟨3, "Gamma"⟩] ∧
    (BankService.get_all_banks db3 2 (some "MQ==")).page_info.has_next_page = false ∧
    (BankService.get_all_banks db3 2 (some "MQ==")).page_info.has_previous_page = true := by
  decide

/-! ### C9 — not-found is not an error -/

/-- C9: when no bank has the requested id and no branch has the requested
IFSC, both point lookups return `none` (the functions are total: the
not-found case is an ordinary value, not a failure). -/
theorem claim_C9_notfound (db : DB) (bank_id : Int) (ifsc : String)
    (hb : ∀ b ∈ db.banks, b.id ≠ bank_id) (hr : ∀ br ∈ db.branches, br.ifsc ≠ ifsc) :
    BankService.get_bank_by_id db bank_id = none ∧
    BranchService.get_branch_by_ifsc db ifsc = none := by
  constructor
  · unfold BankService.get_bank_by_id BankRepository.get_bank_by_id
    rw [List.find?_eq_none.mpr]
    · rfl
    · intro b hbmem
      simpa using hb b hbmem
  · unfold BranchService.get_branch_by_ifsc BranchRepository.get_branch_by_ifsc
    rw [List.find?_eq_none.mpr]
    · rfl
    · intro r hrmem
      rcases List.mem_flatMap.mp hrmem with ⟨br, hbr, hrin⟩
      rcases List.mem_map.mp hrin with ⟨ba, _, hba⟩
      have : r.ifsc = br.ifsc := by rw [← hba]
      simpa [this] using hr br hbr

/-- Witness for `claim_C9_notfound` at id `42` and IFSC `"DOESNOTEXIST"`. -/
theorem claim_C9_notfound_witness :
    BankService.get_bank_by_id db3 42 = none ∧
    BranchService.get_branch_by_ifsc db3 "DOESNOTEXIST" = none :=
  claim_C9_notfound db3 42 "DOESNOTEXIST" (by decide)
    (by intro br h; simp [db3] at h)

/-! ### C8 — empty-filter short-circuit -/

/-- C8: a filter record in which every field is absent or empty takes the
unfiltered path, so the returned page (edges, page info and total count) is
identical to the page returned with no filter at all, for every `first` and
`after`. -/
theorem claim_C8_empty_filter (db : DB) (first : Int) (after : Option String)
    (f : BranchFilterInput) (h1 : truthy f.ifsc = false) (h2 : truthy f.city = false)
    (h3 : truthy f.district = false) (h4 : truthy f.state = false)
    (h5 : truthy f.bank_name = false) (h6 : truthy f.branch_name = false) :
    BranchService.get_all_branches db first after (some f) =
      BranchService.get_all_branches db first after none := by
  have hfetch : ∀ l o : Int, branchFetch db (some f) l o = branchFetch db none l o := by
    intro l o
    simp [branchFetch, h1, h2, h3, h4, h5, h6]
  simp only [BranchService.get_all_branches, assembleBranches, hfetch]

/-- Witness for `claim_C8_empty_filter`: the all-default filter record. -/
theorem claim_C8_empty_filter_witness :
    BranchService.get_all_branches dbVaried 2 none
        (some { ifsc := none, city := some "", district := none, state := none,
                bank_name := none, branch_name := none }) =
      BranchService.get_all_branches dbVaried 2 none none :=
  claim_C8_empty_filter dbVaried 2 none _ (by decide) (by decide) (by decide) (by decide)
    (by decide) (by decide)

/-! ### C4 — count consistency -/

theorem map_sum_ones {β : Type _} (l : List β) (g : β → Nat) (h : ∀ b ∈ l, g b = 1) :
    (l.map g).sum = l.length := by
  induction l with
  | nil => rfl
  | cons a as ih =>
    simp only [List.map_cons, List.sum_cons, List.length_cons, h a (by simp),
      ih fun b hb => h b (by simp [hb])]
    omega

theorem length_joinRows (db : DB) (h : refIntegrity db) :
    (joinRows db).length = db.branches.length := by
  unfold joinRows
  rw [List.length_flatMap]
  apply map_sum_ones
  intro br hbr
  simp [List.length_map, h br hbr]

theorem fieldCond_nil (o : Option String) (sel : JoinedRow → String) (h : truthy o = false) :
    fieldCond o sel = [] := by
  match o with
  | none => rfl
  | some s =>
    simp only [truthy, Bool.not_eq_false'] at h
    simp [fieldCond, h]

theorem rowMatches_inactive (f : BranchFilterInput) (h : filterActive (some f) = false) :
    ∀ r, rowMatches f r = true := by
  simp only [filterActive, Bool.or_eq_false_iff] at h
  intro r
  unfold rowMatches searchConds
  rw [fieldCond_nil _ _ h.1.1.1.1.1, fieldCond_nil _ _ h.1.1.1.1.2,
    fieldCond_nil _ _ h.1.1.1.2, fieldCond_nil _ _ h.1.1.2, fieldCond_nil _ _ h.1.2,
    fieldCond_nil _ _ h.2]
  rfl

/-- C4: for every filter (including the absent and the all-empty filter) and
every `first`/`after`, the reported `total_count` equals the number of joined
rows matching the request's predicate; moreover `search_branches` derives
both its count and its row window from the one shared predicate. -/
theorem claim_C4_count_consistency (db : DB) (fopt : Option BranchFilterInput)
    (first : Int) (after : Option String) (h : refIntegrity db) :
    (BranchService.get_all_branches db first after fopt).total_count =
      ((joinRows db).filter (rowMatchesOpt fopt)).length ∧
    (∀ (f : BranchFilterInput) (l o : Int),
      (BranchRepository.search_branches db f l o).2 =
        ((joinRows db).filter (rowMatches f)).length ∧
      (BranchRepository.search_branches db f l o).1 =
        sqlSlice l o (sortLe ifscLe ((joinRows db).filter (rowMatches f)))) := by
  refine ⟨?_, fun f l o => ⟨rfl, rfl⟩⟩
  rw [branches_total_eq]
  match fopt with
  | none =>
    simp only [branchTotal, rowMatchesOpt, List.filter_true]
    exact (length_joinRows db h).symm
  | some f =>
    by_cases hact : filterActive (some f) = true
    · simp [branchTotal, hact, rowMatchesOpt]
    · have hall := rowMatches_inactive f (by simpa using hact)
      simp only [branchTotal, hact, if_false, rowMatchesOpt, Bool.false_eq_true]
      rw [List.filter_eq_self.mpr fun r _ => hall r]
      exact (length_joinRows db h).symm

/-- Witness for `claim_C4_count_consistency`: a city filter on the varied
dataset reports `total_count = 2` (the Mumbai rows) regardless of paging. -/
theorem claim_C4_count_consistency_witness :
    (BranchService.get_all_branches dbVaried 1 none
        (some { city := some "Mumbai" })).total_count =
      ((joinRows dbVaried).filter
        (rowMatchesOpt (some { city := some "Mumbai" }))).length :=
  (claim_C4_count_consistency dbVaried (some { city := some "Mumbai" }) 1 none
    (by intro br hbr; fin_cases hbr <;> decide)).1

/-! ### C5 — malformed-cursor degradation -/

theorem b64Index_b64Char : ∀ k, k < 64 → b64Index (b64Char k) = some k := by decide

theorem b64Char_ne_pad : ∀ k, k < 64 → ¬b64Char k = '=' := by decide

theorem isB64CharOrPad_b64Char : ∀ k, k < 64 → isB64CharOrPad (b64Char k) = true := by decide

theorem b64Char_ascii : ∀ k, k < 64 → (b64Char k).toNat < 128 := by decide

/-- Base64 decoding inverts encoding on byte lists. -/
theorem b64decodeGroups_encode (bs : List Nat) (h : ∀ b ∈ bs, b < 256) :
    b64decodeGroups (b64encodeBytes bs) = some bs := by
  have H : ∀ n (bs : List Nat), bs.length ≤ n → (∀ b ∈ bs, b < 256) →
      b64decodeGroups (b64encodeBytes bs) = some bs := by
    intro n
    induction n with
    | zero =>
      intro bs hlen _
      rw [List.eq_nil_of_length_eq_zero (Nat.le_zero.mp hlen)]
      rfl
    | succ m ih =>
      intro bs hlen hb
      match bs with
      | [] => rfl
      | [b1] =>
        have h1 : b1 < 256 := hb b1 (by simp)
        simp only [b64encodeBytes, b64decodeGroups,
          b64Index_b64Char (b1 / 4) (by omega), b64Index_b64Char (b1 % 4 * 16) (by omega),
          if_pos rfl]
        have e1 : b1 / 4 * 4 + b1 % 4 * 16 / 16 = b1 := by omega
        rw [e1, if_true]
      | [b1, b2] =>
        have h1 : b1 < 256 := hb b1 (by simp)
        have h2 : b2 < 256 := hb b2 (by simp)
        simp only [b64encodeBytes, b64decodeGroups,
          b64Index_b64Char (b1 / 4) (by omega),
          b64Index_b64Char (b1 % 4 * 16 + b2 / 16) (by omega),
          b64Index_b64Char (b2 % 16 * 4) (by omega),
          if_neg (b64Char_ne_pad (b2 % 16 * 4) (by omega)), if_pos rfl]
        have e1 : b1 / 4 * 4 + (b1 % 4 * 16 + b2 / 16) / 16 = b1 := by omega
        have e2 : (b1 % 4 * 16 + b2 / 16) % 16 * 16 + b2 % 16 * 4 / 4 = b2 := by omega
        rw [e1, e2, if_true]
      | b1 :: b2 :: b3 :: rest =>
        have h1 : b1 < 256 := hb b1 (by simp)
        have h2 : b2 < 256 := hb b2 (by simp)
        have h3 : b3 < 256 := hb b3 (by simp)
        have hrest : b64decodeGroups (b64encodeBytes rest) = some rest := by
          apply ih rest (by simp at hlen; omega)
          intro b hbmem
          exact hb b (by simp [hbmem])
        simp only [b64encodeBytes, b64decodeGroups,
          b64Index_b64Char (b1 / 4) (by omega),
          b64Index_b64Char (b1 % 4 * 16 + b2 / 16) (by omega),
          b64Index_b64Char (b2 % 16 * 4 + b3 / 64) (by omega),
          b64Index_b64Char (b3 % 64) (by omega),
          if_neg (b64Char_ne_pad (b2 % 16 * 4 + b3 / 64) (by omega)),
          if_neg (b64Char_ne_pad (b3 % 64) (by omega)), hrest, Option.map_some]
        have e1 : b1 / 4 * 4 + (b1 % 4 * 16 + b2 / 16) / 16 = b1 := by omega
        have e2 : (b1 % 4 * 16 + b2 / 16) % 16 * 16 + (b2 % 16 * 4 + b3 / 64) / 4 = b2 := by
          omega
        have e3 : (b2 % 16 * 4 + b3 / 64) % 4 * 64 + b3 % 64 = b3 := by omega
        rw [e1, e2, e3]
        rfl
  exact H bs.length bs le_rfl h

/-- Every character the encoder emits is in the alphabet (or padding) and is
ASCII. -/
theorem b64encodeBytes_chars (bs : List Nat) (h : ∀ b ∈ bs, b < 256) :
    ∀ c ∈ b64encodeBytes bs, isB64CharOrPad c = true ∧ c.toNat < 128 := by
  have H : ∀ n (bs : List Nat), bs.length ≤ n → (∀ b ∈ bs, b < 256) →
      ∀ c ∈ b64encodeBytes bs, isB64CharOrPad c = true ∧ c.toNat < 128 := by
    intro n
    induction n with
    | zero =>
      intro bs hlen _
      rw [List.eq_nil_of_length_eq_zero (Nat.le_zero.mp hlen)]
      simp [b64encodeBytes]
    | succ m ih =>
      intro bs hlen hb c hc
      have hch : ∀ k, k < 64 → isB64CharOrPad (b64Char k) = true ∧ (b64Char k).toNat < 128 :=
        fun k hk => ⟨isB64CharOrPad_b64Char k hk, b64Char_ascii k hk⟩
      have hpad : isB64CharOrPad '=' = true ∧ ('=').toNat < 128 := by decide
      match bs with
      | [] => simp [b64encodeBytes] at hc
      | [b1] =>
        have h1 : b1 < 256 := hb b1 (by simp)
        simp only [b64encodeBytes, List.mem_cons, List.not_mem_nil, or_false] at hc
        rcases hc with rfl | rfl | rfl | rfl
        · exact hch _ (by omega)
        · exact hch _ (by omega)
        · exact hpad
        · exact hpad
      | [b1, b2] =>
        have h1 : b1 < 256 := hb b1 (by simp)
        have h2 : b2 < 256 := hb b2 (by simp)
        simp only [b64encodeBytes, List.mem_cons, List.not_mem_nil, or_false] at hc
        rcases hc with rfl | rfl | rfl | rfl
        · exact hch _ (by omega)
        · exact hch _ (by omega)
        · exact hch _ (by omega)
        · exact hpad
      | b1 :: b2 :: b3 :: rest =>
        have h1 : b1 < 256 := hb b1 (by simp)
        have h2 : b2 < 256 := hb b2 (by simp)
        have h3 : b3 < 256 := hb b3 (by simp)
        simp only [b64encodeBytes, List.mem_cons] at hc
        rcases hc with rfl | rfl | rfl | rfl | hc
        · exact hch _ (by omega)
        · exact hch _ (by omega)
        · exact hch _ (by omega)
        · exact hch _ (by omega)
        · exact ih rest (by simp at hlen; omega) (fun b hbm => hb b (by simp [hbm])) c hc
  exact H bs.length bs le_rfl h

/-- `b64decode` inverts `b64encode` at the string level. -/
theorem pyB64Decode_encode (bs : List Nat) (h : ∀ b ∈ bs, b < 256) :
    pyB64Decode ⟨b64encodeBytes bs⟩ = some bs := by
  have hchars := b64encodeBytes_chars bs h
  unfold pyB64Decode
  have htl : (String.mk (b64encodeBytes bs)).toList = b64encodeBytes bs := rfl
  rw [htl, if_pos (List.all_eq_true.mpr fun c hc => by
      simpa using (hchars c hc).2),
    List.filter_eq_self.mpr fun c hc => (hchars c hc).1]
  exact b64decodeGroups_encode bs h

theorem digitChar_facts : ∀ d, d < 10 →
    isDigitChar (digitChar d) = true ∧ digitVal (digitChar d) = d ∧ ¬digitChar d = '_' ∧
    ¬digitChar d = '-' ∧ ¬digitChar d = '+' ∧ pyWs (digitChar d) = false ∧
    (digitChar d).toNat < 128 := by
  decide

theorem natDecAux_mem : ∀ fuel n, n < fuel → ∀ c ∈ natDecAux fuel n,
    ∃ d, d < 10 ∧ c = digitChar d := by
  intro fuel
  induction fuel with
  | zero => omega
  | succ m ih =>
    intro n hn c hc
    by_cases h10 : n < 10
    · rw [natDecAux, if_pos h10] at hc
      rw [List.mem_singleton.mp hc]
      exact ⟨n, h10, rfl⟩
    · rw [natDecAux, if_neg h10] at hc
      rcases List.mem_append.mp hc with h | h
      · exact ih (n / 10) (by omega) c h
      · rw [List.mem_singleton.mp h]
        exact ⟨n % 10, by omega, rfl⟩

theorem natDecAux_ne_nil : ∀ fuel n, n < fuel → natDecAux fuel n ≠ [] := by
  intro fuel n hn
  match fuel with
  | 0 => omega
  | m + 1 =>
    by_cases h10 : n < 10
    · rw [natDecAux, if_pos h10]
      simp
    · rw [natDecAux, if_neg h10]
      simp

theorem digitsValAux_append (xs ys : List Char) : ∀ acc,
    digitsValAux (xs ++ ys) acc = (digitsValAux xs acc).bind fun a => digitsValAux ys a := by
  induction xs with
  | nil => intro acc; rfl
  | cons c cs ih =>
    intro acc
    simp only [List.cons_append, List.append_eq, digitsValAux]
    by_cases hd : isDigitChar c = true
    · rw [if_pos hd, if_pos hd, ih]
    · rw [if_neg hd, if_neg hd]
      rfl

theorem natDecAux_val : ∀ fuel n, n < fuel → ∀ acc,
    digitsValAux (natDecAux fuel n) acc =
      some (acc * 10 ^ (natDecAux fuel n).length + n) := by
  intro fuel
  induction fuel with
  | zero => omega
  | succ m ih =>
    intro n hn acc
    by_cases h10 : n < 10
    · rw [natDecAux, if_pos h10]
      have hf := digitChar_facts n h10
      simp only [digitsValAux]
      rw [if_pos hf.1, hf.2.1]
      simp
    · rw [natDecAux, if_neg h10]
      rw [digitsValAux_append, ih (n / 10) (by omega) acc, Option.some_bind]
      have hf := digitChar_facts (n % 10) (by omega)
      simp only [digitsValAux]
      rw [if_pos hf.1, hf.2.1]
      rw [List.length_append, List.length_singleton, pow_succ]
      have hdm : n / 10 * 10 + n % 10 = n := by omega
      congr 1
      set L := (natDecAux m (n / 10)).length
      calc (acc * 10 ^ L + n / 10) * 10 + n % 10
          = acc * (10 ^ L * 10) + (n / 10 * 10 + n % 10) := by ring
        _ = acc * (10 ^ L * 10) + n := by rw [hdm]

theorem dropWhile_eq_self_of_all {p : α → Bool} (l : List α) (h : ∀ c ∈ l, p c = false) :
    l.dropWhile p = l := by
  match l with
  | [] => rfl
  | a :: as =>
    rw [List.dropWhile_cons, h a (by simp)]
    simp

theorem trimWs_eq_self (cs : List Char) (h : ∀ c ∈ cs, pyWs c = false) : trimWs cs = cs := by
  unfold trimWs
  rw [dropWhile_eq_self_of_all cs h,
    dropWhile_eq_self_of_all cs.reverse fun c hc => h c (List.mem_reverse.mp hc),
    List.reverse_reverse]

theorem underscoresOk_of_no_underscore (cs : List Char) (h : ∀ c ∈ cs, ¬c = '_') :
    underscoresOk cs = true := by
  induction cs with
  | nil => rfl
  | cons c rest ih =>
    simp only [underscoresOk]
    rw [if_neg (h c (by simp))]
    exact ih fun c hc => h c (by simp [hc])

/-- On a non-empty all-digit char list, `parseUnderscoredDigits` is the plain
digit fold. -/
theorem parseUnderscoredDigits_digits (cs : List Char) (hne : cs ≠ [])
    (hd : ∀ c ∈ cs, ∃ d, d < 10 ∧ c = digitChar d) :
    parseUnderscoredDigits cs = digitsValAux cs 0 := by
  have hnund : ∀ c ∈ cs, ¬c = '_' := by
    intro c hc
    obtain ⟨d, hdd, rfl⟩ := hd c hc
    exact (digitChar_facts d hdd).2.2.1
  obtain ⟨c, rest, rfl⟩ := List.exists_cons_of_ne_nil hne
  unfold parseUnderscoredDigits
  have hhead : ¬(c :: rest).head? = some '_' := by
    simp only [List.head?_cons, Option.some.injEq]
    exact hnund c (by simp)
  rw [if_neg hhead, underscoresOk_of_no_underscore _ hnund, if_pos rfl,
    List.filter_eq_self.mpr fun x hx => by simpa using hnund x hx]
  unfold parseDigits
  rw [if_neg (by simp)]

/-- `int(str)` inverts `str(n)` for a natural `n`. -/
theorem pyIntParse_natDecimal (n : Nat) : pyIntParse (natDecimal n) = some (n : Int) := by
  have hmem : ∀ c ∈ natDecimal n, ∃ d, d < 10 ∧ c = digitChar d :=
    natDecAux_mem (n + 1) n (by omega)
  have hnws : ∀ c ∈ natDecimal n, pyWs c = false := by
    intro c hc
    obtain ⟨d, hd, rfl⟩ := hmem c hc
    exact (digitChar_facts d hd).2.2.2.2.2.1
  obtain ⟨c, rest, hcons⟩ :=
    List.exists_cons_of_ne_nil (show natDecimal n ≠ [] from natDecAux_ne_nil (n + 1) n (by omega))
  have hc0 : c ∈ natDecimal n := by rw [hcons]; simp
  obtain ⟨d, hd, hcd⟩ := hmem c hc0
  have hnd : ¬c = '-' := by rw [hcd]; exact (digitChar_facts d hd).2.2.2.1
  have hnp : ¬c = '+' := by rw [hcd]; exact (digitChar_facts d hd).2.2.2.2.1
  unfold pyIntParse
  rw [trimWs_eq_self _ hnws, hcons]
  show (if c = '-' then (parseUnderscoredDigits rest).map fun n => -(n : Int)
    else if c = '+' then (parseUnderscoredDigits rest).map fun n => (n : Int)
    else (parseUnderscoredDigits (c :: rest)).map fun n => (n : Int)) = some (n : Int)
  rw [if_neg hnd, if_neg hnp, ← hcons,
    parseUnderscoredDigits_digits _ (by rw [hcons]; simp) hmem,
    show natDecimal n = natDecAux (n + 1) n from rfl, natDecAux_val (n + 1) n (by omega) 0]
  simp

/-- C1: the cursor codec round-trips — decoding the cursor minted for any
non-negative offset `n` (base64 of the decimal string) recovers exactly `n`,
for the per-edge `encode` and the `decode` applied to `after`. -/
theorem claim_C1_cursor_roundtrip (n : Nat) :
    decodeCursorInt (encodeCursor (n : Int)) = some (n : Int) := by
  have hint : intDecimal (n : Int) = natDecimal n := by
    unfold intDecimal
    rw [if_neg (by omega : ¬(n : Int) < 0)]
    simp
  have hbytes : ∀ b ∈ textToBytes (natDecimal n), b < 256 := by
    intro b hb
    rcases List.mem_map.mp hb with ⟨c, hc, rfl⟩
    obtain ⟨d, hd, rfl⟩ := natDecAux_mem (n + 1) n (by omega) c hc
    have := (digitChar_facts d hd).2.2.2.2.2.2
    omega
  have hascii : ∀ b ∈ textToBytes (natDecimal n), b < 128 := by
    intro b hb
    rcases List.mem_map.mp hb with ⟨c, hc, rfl⟩
    obtain ⟨d, hd, rfl⟩ := natDecAux_mem (n + 1) n (by omega) c hc
    exact (digitChar_facts d hd).2.2.2.2.2.2
  unfold encodeCursor decodeCursorInt
  rw [hint, pyB64Decode_encode _ hbytes, Option.some_bind]
  have htext : bytesToAsciiText (textToBytes (natDecimal n)) = some (natDecimal n) := by
    unfold bytesToAsciiText
    rw [if_pos (List.all_eq_true.mpr fun b hb => by simpa using hascii b hb)]
    unfold textToBytes
    rw [List.map_map]
    have hid : List.map (Char.ofNat ∘ Char.toNat) (natDecimal n) = List.map id (natDecimal n) :=
      List.map_congr_left fun c _ => Char.ofNat_toNat c
    rw [hid, List.map_id]
  rw [htext, Option.some_bind]
  exact pyIntParse_natDecimal n


/-! ### SQL `LIKE` semantics (for C6 and C10) -/

theorem likeAux_mono : ∀ f1 (p s : List Char) (f2 : Nat), p.length + s.length < f1 →
    p.length + s.length < f2 → likeAux f1 p s = likeAux f2 p s := by
  intro f1
  induction f1 with
  | zero => intro p s f2 h1 _; omega
  | succ g ih =>
    intro p s f2 h1 h2
    cases f2 with
    | zero => omega
    | succ hh =>
      cases p with
      | nil => rfl
      | cons a p' =>
        cases s with
        | nil =>
          simp only [likeAux]
          by_cases ha : a = '%'
          · rw [if_pos ha, if_pos ha,
              ih p' [] hh (by simp only [List.length_cons, List.length_nil] at h1 ⊢; omega)
                (by simp only [List.length_cons, List.length_nil] at h2 ⊢; omega)]
          · rw [if_neg ha, if_neg ha]
        | cons c s' =>
          simp only [likeAux]
          by_cases ha : a = '%'
          · rw [if_pos ha, if_pos ha,
              ih p' (c :: s') hh (by simp only [List.length_cons] at h1 ⊢; omega)
                (by simp only [List.length_cons] at h2 ⊢; omega),
              ih (a :: p') s' hh (by simp only [List.length_cons] at h1 ⊢; omega)
                (by simp only [List.length_cons] at h2 ⊢; omega)]
          · rw [if_neg ha, if_neg ha,
              ih p' s' hh (by simp only [List.length_cons] at h1 ⊢; omega)
                (by simp only [List.length_cons] at h2 ⊢; omega)]

theorem likeAux_eq_likeChars (fuel : Nat) (p s : List Char) (h : p.length + s.length < fuel) :
    likeAux fuel p s = likeChars p s :=
  likeAux_mono fuel p s (p.length + s.length + 1) h (by omega)

theorem likeChars_succ (p s : List Char) (fuel : Nat) (h : p.length + s.length ≤ fuel) :
    likeChars p s = likeAux (fuel + 1) p s :=
  (likeAux_eq_likeChars (fuel + 1) p s (by omega)).symm

theorem likeChars_nil (s : List Char) : likeChars [] s = s.isEmpty := rfl

theorem likeChars_cons_nil {a : Char} (p : List Char) (ha : ¬a = '%') :
    likeChars (a :: p) [] = false := by
  rw [likeChars_succ (a :: p) [] (p.length + 1) (by simp)]
  simp only [likeAux]
  rw [if_neg ha]

theorem likeChars_pct_nil (p : List Char) : likeChars ('%' :: p) [] = likeChars p [] := by
  rw [likeChars_succ ('%' :: p) [] (p.length + 1) (by simp)]
  simp only [likeAux, if_pos]
  exact likeAux_eq_likeChars _ _ _ (by simp)

theorem likeChars_pct_cons (p : List Char) (c : Char) (s' : List Char) :
    likeChars ('%' :: p) (c :: s') = (likeChars p (c :: s') || likeChars ('%' :: p) s') := by
  rw [likeChars_succ ('%' :: p) (c :: s') (p.length + s'.length + 2) (by simp; omega)]
  simp only [likeAux, if_pos]
  rw [likeAux_eq_likeChars _ _ _ (by simp; omega),
    likeAux_eq_likeChars _ _ _ (by simp; omega)]

theorem likeChars_cons_cons {a : Char} (p : List Char) (c : Char) (s' : List Char)
    (ha : ¬a = '%') :
    likeChars (a :: p) (c :: s') =
      ((if a = '_' then true else asciiLower a == asciiLower c) && likeChars p s') := by
  rw [likeChars_succ (a :: p) (c :: s') (p.length + s'.length + 2) (by simp; omega)]
  simp only [likeAux]
  rw [if_neg ha, likeAux_eq_likeChars _ _ _ (by omega)]

theorem noWild_cons {a : Char} {p : List Char} (h : noWild (a :: p) = true) :
    ¬a = '%' ∧ ¬a = '_' ∧ noWild p = true := by
  simp only [noWild, List.all_cons, Bool.and_eq_true, Bool.not_eq_true',
    decide_eq_false_iff_not] at h
  exact ⟨h.1.1, h.1.2, h.2⟩

/-- A wildcard-free pattern matches exactly the strings equal to it up to
ASCII case. -/
theorem likeChars_noWild (p : List Char) (hw : noWild p = true) : ∀ s,
    (likeChars p s = true ↔ p.map asciiLower = s.map asciiLower) := by
  induction p with
  | nil =>
    intro s
    rw [likeChars_nil]
    cases s <;> simp
  | cons a p' ih =>
    obtain ⟨hpc, hus, hw'⟩ := noWild_cons hw
    intro s
    cases s with
    | nil =>
      rw [likeChars_cons_nil p' hpc]
      simp
    | cons c s' =>
      rw [likeChars_cons_cons p' c s' hpc, if_neg hus]
      simp only [List.map_cons, Bool.and_eq_true, beq_iff_eq, List.cons.injEq]
      exact and_congr Iff.rfl (ih hw' s')

theorem likeChars_pct_univ : ∀ s, likeChars ['%'] s = true := by
  intro s
  induction s with
  | nil => rfl
  | cons c s' ih =>
    rw [likeChars_pct_cons, ih]
    simp

/-- A wildcard-free pattern followed by `%` matches exactly the strings it
is a (case-folded) prefix of. -/
theorem likeChars_pct_end (v : List Char) (hw : noWild v = true) : ∀ s,
    (likeChars (v ++ ['%']) s = true ↔ v.map asciiLower <+: s.map asciiLower) := by
  induction v with
  | nil =>
    intro s
    simp only [List.nil_append, List.map_nil]
    constructor
    · intro _
      exact List.nil_prefix
    · intro _
      exact likeChars_pct_univ s
  | cons a v' ih =>
    obtain ⟨hpc, hus, hw'⟩ := noWild_cons hw
    intro s
    cases s with
    | nil =>
      rw [List.cons_append, likeChars_cons_nil _ hpc]
      simp
    | cons c s' =>
      rw [List.cons_append, likeChars_cons_cons _ c s' hpc, if_neg hus]
      simp only [List.map_cons, List.cons_prefix_cons, Bool.and_eq_true, beq_iff_eq]
      exact and_congr Iff.rfl (ih hw' s')

/-- A leading `%` matches iff the rest of the pattern matches some suffix. -/
theorem likeChars_pct_start (p : List Char) : ∀ s,
    (likeChars ('%' :: p) s = true ↔ ∃ nn, likeChars p (s.drop nn) = true) := by
  intro s
  induction s with
  | nil =>
    rw [likeChars_pct_nil]
    constructor
    · intro h
      exact ⟨0, h⟩
    · rintro ⟨nn, h⟩
      rwa [List.drop_nil] at h
  | cons c s' ih =>
    rw [likeChars_pct_cons]
    simp only [Bool.or_eq_true]
    constructor
    · rintro (h | h)
      · exact ⟨0, h⟩
      · obtain ⟨nn, h⟩ := ih.mp h
        exact ⟨nn + 1, h⟩
    · rintro ⟨nn, h⟩
      cases nn with
      | zero => exact Or.inl h
      | succ m => exact Or.inr (ih.mpr ⟨m, h⟩)

theorem prefix_drop_infix_iff (p l : List Char) : (∃ nn, p <+: l.drop nn) ↔ p <:+: l := by
  constructor
  · rintro ⟨nn, h⟩
    exact List.infix_iff_prefix_suffix.mpr ⟨l.drop nn, h, List.drop_suffix nn l⟩
  · intro h
    obtain ⟨t, hp, hs⟩ := List.infix_iff_prefix_suffix.mp h
    exact ⟨l.length - t.length, by rwa [← List.suffix_iff_eq_drop.mp hs]⟩

/-- The full characterisation of `LIKE \'%v%\'` for wildcard-free `v`:
case-insensitive substring containment. -/
theorem likeCond_noWild_iff (v s : String) (hw : noWild v.toList = true) :
    (likeCond v s = true ↔ v.toList.map asciiLower <:+: s.toList.map asciiLower) := by
  unfold likeCond
  rw [List.cons_append, likeChars_pct_start (v.toList ++ ['%']) s.toList]
  constructor
  · rintro ⟨nn, h⟩
    apply (prefix_drop_infix_iff _ _).mp
    refine ⟨nn, ?_⟩
    rw [← List.map_drop]
    exact (likeChars_pct_end v.toList hw _).mp h
  · intro h
    obtain ⟨nn, hp⟩ := (prefix_drop_infix_iff _ _).mpr h
    refine ⟨nn, (likeChars_pct_end v.toList hw _).mpr ?_⟩
    rw [List.map_drop]
    exact hp

theorem containsChars_infix_iff (needle hay : List Char) :
    containsChars needle hay = true ↔ needle <:+: hay := by
  induction hay with
  | nil =>
    simp [containsChars, List.infix_nil, List.isEmpty_iff]
  | cons c rest ih =>
    simp only [containsChars, Bool.or_eq_true, List.infix_cons_iff]
    exact or_congr List.isPrefixOf_iff_prefix ih


/-! ### C6 — filter conjunction; C10 — `LIKE`, not literal substring -/

/-- C6 counterexample: filtering by `city = "A_C"` returns the branch whose
stored city is `"AXC"`, although `"A_C"` is not a substring of `"AXC"` — the
condition is SQL `LIKE`, not substring containment, so the claim's "contains
the filter value as a substring" fails on the code. -/
theorem claim_C6_counterexample :
    ((BranchService.get_all_branches dbAXC 10 none
        (some { city := some "A_C" })).edges.map fun e => e.node.city) = ["AXC"] ∧
    strContains "A_C" "AXC" = false := by
  exact ⟨by decide, by decide⟩

/-- C6 (amended): each present (non-empty) field contributes exactly one
`LIKE '%value%'` condition (SQLite `LIKE`: ASCII-case-insensitive with `%`/`_`
wildcards — substring containment only for wildcard-free values up to case),
and all present conditions are ANDed; hence the two-field result set contains
only rows satisfying both conditions and is a subset of either single-field
result set — strict on the varied dataset. -/
theorem claim_C6_conjunction_amended (db : DB) (c s : String) (hc : c.isEmpty = false)
    (hs : s.isEmpty = false) :
    (∀ r, rowMatches { city := some c, state := some s } r =
      (likeCond c r.city && likeCond s r.state)) ∧
    (∀ r ∈ matchedSet db { city := some c, state := some s },
      r ∈ matchedSet db { city := some c } ∧ r ∈ matchedSet db { state := some s }) ∧
    ((matchedSet dbVaried { city := some "Mumbai", state := some "MH" }).map (fun r => r.ifsc) =
        ["IF01"] ∧
      (matchedSet dbVaried { city := some "Mumbai" }).map (fun r => r.ifsc) = ["IF01", "IF02"] ∧
      (matchedSet dbVaried { state := some "MH" }).map (fun r => r.ifsc) = ["IF01", "IF03"]) := by
  have hboth : ∀ r, rowMatches { city := some c, state := some s } r =
      (likeCond c r.city && likeCond s r.state) := by
    intro r
    unfold rowMatches searchConds fieldCond
    simp [hc, hs]
  have hcity : ∀ r, rowMatches { city := some c } r = likeCond c r.city := by
    intro r
    unfold rowMatches searchConds fieldCond
    simp [hc]
  have hstate : ∀ r, rowMatches { state := some s } r = likeCond s r.state := by
    intro r
    unfold rowMatches searchConds fieldCond
    simp [hs]
  refine ⟨hboth, ?_, by decide, by decide, by decide⟩
  intro r hr
  simp only [matchedSet, List.mem_filter] at hr
  obtain ⟨hmem, hmatch⟩ := hr
  rw [hboth r, Bool.and_eq_true] at hmatch
  constructor
  · simp only [matchedSet, List.mem_filter]
    exact ⟨hmem, by rw [hcity r]; exact hmatch.1⟩
  · simp only [matchedSet, List.mem_filter]
    exact ⟨hmem, by rw [hstate r]; exact hmatch.2⟩

/-- Witness for `claim_C6_conjunction_amended` on the varied dataset. -/
theorem claim_C6_conjunction_amended_witness :
    rowMatches { city := some "Mumbai", state := some "MH" }
        ⟨"IF01", "Br1", "A1", "Mumbai", "D1", "MH", 1, "B1"⟩ =
      (likeCond "Mumbai" "Mumbai" && likeCond "MH" "MH") ∧
    (matchedSet dbVaried { city := some "Mumbai", state := some "MH" }).map (fun r => r.ifsc) =
      ["IF01"] := by
  have h := claim_C6_conjunction_amended dbVaried "Mumbai" "MH" (by decide) (by decide)
  exact ⟨h.1 _, h.2.2.1⟩

/-- C10: every present filter field is compiled to `LIKE '%value%'`; for a
wildcard-free value the match holds iff the (ASCII-case-folded) value occurs
in the (case-folded) stored text — so exact substring containment implies a
match — while values containing `_` or `%` act as wildcards and ASCII case is
ignored, diverging from literal substring containment. -/
theorem claim_C10_like_semantics :
    (∀ (v : String) (r : JoinedRow), v.isEmpty = false →
      rowMatches { city := some v } r = likeCond v r.city) ∧
    (∀ v s : String, noWild v.toList = true →
      (likeCond v s = true ↔ v.toList.map asciiLower <:+: s.toList.map asciiLower)) ∧
    (∀ v s : String, noWild v.toList = true → strContains v s = true → likeCond v s = true) ∧
    (likeCond "A_C" "AXC" = true ∧ strContains "A_C" "AXC" = false) ∧
    (likeCond "B%F" "BCDEF" = true ∧ strContains "B%F" "BCDEF" = false) ∧
    (likeCond "delhi" "DELHI" = true ∧ strContains "delhi" "DELHI" = false) := by
  refine ⟨?_, ?_, ?_, by decide, by decide, by decide⟩
  · intro v r hv
    unfold rowMatches searchConds fieldCond
    simp [hv]
  · exact fun v s hw => likeCond_noWild_iff v s hw
  · intro v s hw hcont
    apply (likeCond_noWild_iff v s hw).mpr
    exact ((containsChars_infix_iff _ _).mp hcont).map asciiLower

/-- Witness for `claim_C10_like_semantics`: the wildcard-free value `"Mum"`
contained in the stored `"Mumbai"` matches. -/
theorem claim_C10_like_semantics_witness :
    likeCond "Mum" "Mumbai" = true ∧
    (likeCond "delhi" "DELHI" = true ↔
      "delhi".toList.map asciiLower <:+: "DELHI".toList.map asciiLower) := by
  have h := claim_C10_like_semantics
  exact ⟨h.2.2.1 "Mum" "Mumbai" (by decide) (by decide), h.2.1 "delhi" "DELHI" (by decide)⟩

end BankGql
